import Mathlib

/-!
Verification of the Python AST extractor of the docstring-verifier repository
(src/tools/python/ast_extractor.py).

The development shallowly embeds the extractor: the Python AST fragment the
script consumes is an inductive family, the `ast.NodeVisitor` subclass is a
state-passing visitor over that family, and the JSON serialization layer
(`to_dict`, `dataclass_to_dict`, `extract_functions`) is a function into a
small JSON value type.  Location fields are carried only on node kinds whose
locations the extractor reads.  Spec-side definitions (named `spec...` or
`claim...`) restate the documented behaviour independently and are compared
with the embedded code by theorem.
-/

namespace DocstringVerifier

/-- Kinds of Python literal constants (payloads kept only where the extractor
reads them: the string payload feeds docstrings and `ast.unparse`, numeric
payloads feed `ast.unparse` of default values). -/
inductive ConstKind where
  | pyNone
  | pyBool (b : Bool)
  | pyInt (n : Int)
  | pyFloat (reprText : String)
  | pyComplex (reprText : String)
  | pyStr (s : String)
  | pyBytes (reprText : String)
  | pyEllipsis
  deriving DecidableEq, Repr

/-- Result of Python `type(value).__name__` on a constant payload. -/
def constTypeName : ConstKind → String
  | .pyNone => "NoneType"
  | .pyBool _ => "bool"
  | .pyInt _ => "int"
  | .pyFloat _ => "float"
  | .pyComplex _ => "complex"
  | .pyStr _ => "str"
  | .pyBytes _ => "bytes"
  | .pyEllipsis => "ellipsis"

mutual

/-- Python expressions, restricted to the shapes the extractor distinguishes;
every other expression form is represented by the closest constructor with
the same child structure (the visitor only dispatches on `Call`, and the
helper functions only dispatch on the shapes below). -/
inductive Expr where
  | constant (k : ConstKind)
  | name (id : String)
  | attrAccess (value : Expr) (attr : String)
  | subscript (value : Expr) (slice : Expr)
  | call (func : Expr) (callArgs : List Expr)
  | binOp (op : String) (left right : Expr)
  | listLit (elts : List Expr)
  | tupleLit (elts : List Expr)
  | setLit (elts : List Expr)
  | dictLit (keys vals : List Expr)
  | yieldExpr (value : Option Expr)
  | yieldFrom (value : Expr)
  | awaitExpr (value : Expr)

/-- One formal parameter (`ast.arg`): name and optional annotation. -/
inductive Arg where
  | mk (argName : String) (ann : Option Expr)

/-- The `ast.arguments` record, fields in Python field order. -/
inductive Arguments where
  | mk (posonlyargs : List Arg) (args : List Arg) (vararg : Option Arg)
       (kwonlyargs : List Arg) (kw_defaults : List (Option Expr))
       (kwarg : Option Arg) (defaults : List Expr)

/-- An `ast.ExceptHandler`: optional exception-type expression and body. -/
inductive Handler where
  | mk (htype : Option Expr) (body : List Stmt)

/-- Python statements.  `functionDef` covers both `FunctionDef` and
`AsyncFunctionDef` (the visitor treats them identically via delegation);
`isAsync` records which node kind it was.  Location fields appear only where
the extractor reads them. -/
inductive Stmt where
  | functionDef (isAsync : Bool) (defName : String) (args : Arguments)
      (body : List Stmt) (returns : Option Expr)
      (lineno : Nat) (end_lineno : Option Nat)
      (col_offset : Nat) (end_col_offset : Option Nat)
  | classDef (clsName : String) (body : List Stmt)
  | returnStmt (value : Option Expr) (lineno : Nat)
  | raiseStmt (exc : Option Expr) (cause : Option Expr) (lineno : Nat)
  | exprStmt (value : Expr) (lineno : Nat) (end_lineno : Option Nat)
  | assign (targets : List Expr) (value : Expr)
  | augAssign (target : Expr) (value : Expr)
  | ifStmt (test : Expr) (body orelse : List Stmt)
  | whileStmt (test : Expr) (body orelse : List Stmt)
  | forStmt (target iter : Expr) (body orelse : List Stmt)
  | withStmt (items : List Expr) (body : List Stmt)
  | tryStmt (body : List Stmt) (handlers : List Handler)
      (orelse finalbody : List Stmt)
  | globalStmt (names : List String) (lineno : Nat)
  | nonlocalStmt (names : List String) (lineno : Nat)
  | passStmt

end

/-- Projection of the parameter name of an `Arg`. -/
def Arg.nameOf : Arg → String
  | .mk n _ => n

/-- Projection of the annotation of an `Arg`. -/
def Arg.annOf : Arg → Option Expr
  | .mk _ a => a

/-- Python truthy `or` on an optional source location, as in
`node.end_lineno or node.lineno` (`None` and `0` are falsy). -/
def pyLocOr (a : Option Nat) (b : Nat) : Nat :=
  match a with
  | some k => if k = 0 then b else k
  | none => b

mutual

/-- Embedding of `ast.unparse` restricted to the node shapes above
(canonical source text of an expression; formatting details Python applies
to rare forms are irrelevant to every property proved here). -/
def unparse : Expr → String
  | .constant .pyNone => "None"
  | .constant (.pyBool true) => "True"
  | .constant (.pyBool false) => "False"
  | .constant (.pyInt n) => toString n
  | .constant (.pyFloat r) => r
  | .constant (.pyComplex r) => r
  | .constant (.pyStr s) => "'" ++ s ++ "'"
  | .constant (.pyBytes r) => r
  | .constant .pyEllipsis => "..."
  | .name id => id
  | .attrAccess v a => unparse v ++ "." ++ a
  | .subscript v s => unparse v ++ "[" ++ unparse s ++ "]"
  | .call f xs => unparse f ++ "(" ++ unparseJoin xs ++ ")"
  | .binOp op l r => unparse l ++ " " ++ op ++ " " ++ unparse r
  | .listLit xs => "[" ++ unparseJoin xs ++ "]"
  | .tupleLit xs => "(" ++ unparseJoin xs ++ ")"
  | .setLit xs => "\x7b" ++ unparseJoin xs ++ "\x7d"
  | .dictLit ks vs => "\x7b" ++ unparseJoin ks ++ " : " ++ unparseJoin vs ++ "\x7d"
  | .yieldExpr none => "(yield)"
  | .yieldExpr (some v) => "(yield " ++ unparse v ++ ")"
  | .yieldFrom v => "(yield from " ++ unparse v ++ ")"
  | .awaitExpr v => "await " ++ unparse v

/-- Comma-joined unparse of an expression list. -/
def unparseJoin : List Expr → String
  | [] => ""
  | [x] => unparse x
  | x :: y :: rest => unparse x ++ ", " ++ unparseJoin (y :: rest)

end

/-- Dataclass `ParameterDescriptor` of the source. -/
structure ParameterDescriptor where
  name : String
  type : Option String
  default_value : Option String
  is_optional : Bool
  deriving DecidableEq, Repr

/-- Dataclass `ReturnDescriptor` of the source. -/
structure ReturnDescriptor where
  type : Option String
  line : Nat
  deriving DecidableEq, Repr

/-- Dataclass `ExceptionDescriptor` of the source. -/
structure ExceptionDescriptor where
  type : String
  line : Nat
  deriving DecidableEq, Repr

/-- Dataclass `FunctionDescriptor` of the source.  Field `io_flag` embeds the
source field `has_io`; `global_mods` embeds `has_global_mods`. -/
structure FunctionDescriptor where
  name : String
  line_start : Nat
  line_end : Nat
  col_start : Nat
  col_end : Nat
  parameters : List ParameterDescriptor
  return_type : Option String
  return_statements : List ReturnDescriptor
  raises : List ExceptionDescriptor
  docstring : Option String
  docstring_line_start : Option Nat
  docstring_line_end : Option Nat
  io_flag : Bool
  global_mods : Bool
  deriving DecidableEq, Repr

/-- Mutable fields of the `ASTExtractor` visitor.  `in_function` embeds the
only use the source makes of `current_function`, namely the test
`self.current_function is not None`. -/
structure VisitorState where
  functions : List FunctionDescriptor
  in_function : Bool
  return_statements : List ReturnDescriptor
  exceptions : List ExceptionDescriptor
  io_flag : Bool
  global_mods : Bool
  deriving DecidableEq, Repr

/-- Embedding of `ASTExtractor._extract_annotation` (via `_ast_to_string`). -/
def extract_annotation (a : Option Expr) : Option String :=
  a.map unparse

/-- Embedding of `ASTExtractor._extract_return_type` (an AST node is always
truthy, so `if node.returns:` is a `None` test). -/
def extract_return_type (returns : Option Expr) : Option String :=
  returns.map unparse

/-- Embedding of `ASTExtractor._infer_type` on a present expression. -/
def infer_type : Expr → Option String
  | .constant .pyNone => some "None"
  | .constant k => some (constTypeName k)
  | .name _ => none
  | .listLit _ => some "list"
  | .dictLit _ _ => some "dict"
  | .setLit _ => some "set"
  | .tupleLit _ => some "tuple"
  | _ => none

/-- The expression recorded for a return statement:
`self._infer_type(node.value) if node.value else "None"`. -/
def returnSiteType (value : Option Expr) : Option String :=
  match value with
  | some e => infer_type e
  | none => some "None"

/-- Embedding of `ASTExtractor._extract_exception_type`. -/
def extract_exception_type : Expr → Option String
  | .name id => some id
  | .call f _ => some (unparse f)
  | e => some (unparse e)

/-- Embedding of `ASTExtractor._get_call_name`. -/
def get_call_name : Expr → Option String
  | .name id => some id
  | .attrAccess _ a => some a
  | _ => none

/-- The fixed set `io_functions` of `visit_Call`. -/
def ioFunctionNames : List String :=
  ["open", "read", "write", "print", "input"]

/-- The fixed attribute-name set of the file-operation check in `visit_Call`. -/
def fileOpNames : List String :=
  ["read", "write", "close", "readline", "readlines", "writelines"]

/-- The condition under which `visit_Call` sets `has_io` (given the visitor is
inside a function): call-name membership in `io_functions`, or an
attribute-call membership in the file-operation set. -/
def ioCallHit (func : Expr) : Bool :=
  (match get_call_name func with
   | some n => ioFunctionNames.contains n
   | none => false) ||
  (match func with
   | .attrAccess _ a => fileOpNames.contains a
   | _ => false)

/-- The loop over `args.args` in `_extract_parameters`: `i` is the running
`enumerate` index, `defaultsOffset` the Python integer
`len(args.args) - len(args.defaults)` (possibly negative). -/
def extractRegularParams (defaultsOffset : Int) (defaults : List Expr) :
    Nat → List Arg → List ParameterDescriptor
  | _, [] => []
  | i, a :: rest =>
    let tail := extractRegularParams defaultsOffset defaults (i + 1) rest
    if a.nameOf = "self" || a.nameOf = "cls" then tail
    else
      let defaultIdx : Int := (i : Int) - defaultsOffset
      if 0 ≤ defaultIdx then
        match defaults.get? defaultIdx.toNat with
        | some d =>
          ⟨a.nameOf, extract_annotation a.annOf, some (unparse d), true⟩ :: tail
        | none =>
          -- unreachable for parser-produced arguments: the index is in range
          ⟨a.nameOf, extract_annotation a.annOf, none, false⟩ :: tail
      else
        ⟨a.nameOf, extract_annotation a.annOf, none, false⟩ :: tail

/-- One insertion step of the dict comprehension `kw_defaults_map`, observed
through a lookup of `n`: a pair with a present default and a matching name
overwrites the accumulator. -/
def kwStep (n : String) (acc : Option Expr) (p : Arg × Option Expr) :
    Option Expr :=
  match p.2 with
  | some d => if p.1.nameOf = n then some d else acc
  | none => acc

/-- The dict comprehension `kw_defaults_map` followed by the name lookup:
pairs are `zip(args.kwonlyargs, args.kw_defaults)` with `None` defaults
dropped; a later pair with the same name overwrites an earlier one. -/
def kwDefaultFor (n : String) (pairs : List (Arg × Option Expr)) : Option Expr :=
  pairs.foldl (kwStep n) none

/-- The loop over `args.kwonlyargs` in `_extract_parameters`. -/
def extractKwonlyParams (kwonlyargs : List Arg) (kw_defaults : List (Option Expr)) :
    List ParameterDescriptor :=
  kwonlyargs.map fun kwarg =>
    match kwDefaultFor kwarg.nameOf (kwonlyargs.zip kw_defaults) with
    | some d => ⟨kwarg.nameOf, extract_annotation kwarg.annOf, some (unparse d), true⟩
    | none => ⟨kwarg.nameOf, extract_annotation kwarg.annOf, none, false⟩

/-- Embedding of `ASTExtractor._extract_parameters`: regular args, then the
`*args` entry, then keyword-only args, then the `**kwargs` entry. -/
def extract_parameters : Arguments → List ParameterDescriptor
  | .mk _posonlyargs args vararg kwonlyargs kw_defaults kwarg defaults =>
    extractRegularParams ((args.length : Int) - (defaults.length : Int)) defaults 0 args ++
    (match vararg with
     | some v => [⟨"*" ++ v.nameOf, extract_annotation v.annOf, none, true⟩]
     | none => []) ++
    extractKwonlyParams kwonlyargs kw_defaults ++
    (match kwarg with
     | some k => [⟨"**" ++ k.nameOf, extract_annotation k.annOf, none, true⟩]
     | none => [])

/-- Embedding of `ast.get_docstring` on a function body: the first body
statement must be an expression statement whose value is a string constant.
The `inspect.cleandoc` whitespace normalization Python applies to the text is
not modelled; no property below depends on the docstring text. -/
def get_docstring (body : List Stmt) : Option String :=
  match body with
  | .exprStmt (.constant (.pyStr s)) _ _ :: _ => some s
  | _ => none

/-- Embedding of `ASTExtractor._extract_docstring`: text, start line, end line
(`doc_node.end_lineno or doc_node.lineno`).  An empty docstring is falsy in
`if not docstring`, hence dropped. -/
def extract_docstring (body : List Stmt) :
    Option String × Option Nat × Option Nat :=
  match get_docstring body with
  | none => (none, none, none)
  | some s =>
    if s = "" then (none, none, none)
    else
      match body with
      | .exprStmt (.constant _) ln endLn :: _ =>
        (some s, some ln, some (pyLocOr endLn ln))
      | _ => (some s, none, none)

mutual

/-- Embedding of the visitor dispatch `self.visit(node)` on statements.
Overridden methods exist for `FunctionDef`, `AsyncFunctionDef`, `Return`,
`Raise`, `Global` and `Nonlocal`; every other statement falls through to
`generic_visit`, which visits the child nodes in field order. -/
def visitStmt (s : Stmt) (st : VisitorState) : VisitorState :=
  match s with
  | .functionDef _isAsync defName args body returns lineno end_lineno
      col_offset end_col_offset =>
    -- visit_FunctionDef: save context, reset accumulators, visit the body
    -- children, append the descriptor, restore the context.
    let reset : VisitorState :=
      { functions := st.functions, in_function := true,
        return_statements := [], exceptions := [],
        io_flag := false, global_mods := false }
    let after := visitStmts body reset
    let doc := extract_docstring body
    let d : FunctionDescriptor :=
      { name := defName,
        line_start := lineno,
        line_end := pyLocOr end_lineno lineno,
        col_start := col_offset,
        col_end := pyLocOr end_col_offset col_offset,
        parameters := extract_parameters args,
        return_type := extract_return_type returns,
        return_statements := after.return_statements,
        raises := after.exceptions,
        docstring := doc.1,
        docstring_line_start := doc.2.1,
        docstring_line_end := doc.2.2,
        io_flag := after.io_flag,
        global_mods := after.global_mods }
    { functions := after.functions ++ [d],
      in_function := st.in_function,
      return_statements := st.return_statements,
      exceptions := st.exceptions,
      io_flag := st.io_flag,
      global_mods := st.global_mods }
  | .classDef _ body => visitStmts body st
  | .returnStmt value lineno =>
    let st1 :=
      if st.in_function then
        { st with return_statements :=
            st.return_statements ++ [⟨returnSiteType value, lineno⟩] }
      else st
    visitOptExpr value st1
  | .raiseStmt exc cause lineno =>
    let st1 :=
      if st.in_function then
        match exc with
        | some e =>
          match extract_exception_type e with
          | some t =>
            -- `if exc_type:` — the empty string is falsy
            if t = "" then st
            else { st with exceptions := st.exceptions ++ [⟨t, lineno⟩] }
          | none => st
        | none => st
      else st
    visitOptExpr cause (visitOptExpr exc st1)
  | .exprStmt value _ _ => visitExpr value st
  | .assign targets value => visitExpr value (visitExprs targets st)
  | .augAssign target value => visitExpr value (visitExpr target st)
  | .ifStmt test body orelse =>
    visitStmts orelse (visitStmts body (visitExpr test st))
  | .whileStmt test body orelse =>
    visitStmts orelse (visitStmts body (visitExpr test st))
  | .forStmt target iter body orelse =>
    visitStmts orelse (visitStmts body (visitExpr iter (visitExpr target st)))
  | .withStmt items body => visitStmts body (visitExprs items st)
  | .tryStmt body handlers orelse finalbody =>
    visitStmts finalbody
      (visitStmts orelse (visitHandlers handlers (visitStmts body st)))
  | .globalStmt _ _ =>
    if st.in_function then { st with global_mods := true } else st
  | .nonlocalStmt _ _ =>
    if st.in_function then { st with global_mods := true } else st
  | .passStmt => st

/-- Sequential visit of a statement list (a body). -/
def visitStmts (ss : List Stmt) (st : VisitorState) : VisitorState :=
  match ss with
  | [] => st
  | s :: rest => visitStmts rest (visitStmt s st)

/-- Visitor dispatch on expressions: only `Call` has an overridden method;
everything else falls through to `generic_visit`. -/
def visitExpr (e : Expr) (st : VisitorState) : VisitorState :=
  match e with
  | .constant _ => st
  | .name _ => st
  | .attrAccess v _ => visitExpr v st
  | .subscript v s => visitExpr s (visitExpr v st)
  | .call func callArgs =>
    let st1 :=
      if st.in_function then
        if ioCallHit func then { st with io_flag := true } else st
      else st
    visitExprs callArgs (visitExpr func st1)
  | .binOp _ l r => visitExpr r (visitExpr l st)
  | .listLit xs => visitExprs xs st
  | .tupleLit xs => visitExprs xs st
  | .setLit xs => visitExprs xs st
  | .dictLit ks vs => visitExprs vs (visitExprs ks st)
  | .yieldExpr v => visitOptExpr v st
  | .yieldFrom v => visitExpr v st
  | .awaitExpr v => visitExpr v st

/-- Sequential visit of an expression list. -/
def visitExprs (es : List Expr) (st : VisitorState) : VisitorState :=
  match es with
  | [] => st
  | e :: rest => visitExprs rest (visitExpr e st)

/-- Visit of an optional child expression (absent children are skipped by
`generic_visit`). -/
def visitOptExpr (v : Option Expr) (st : VisitorState) : VisitorState :=
  match v with
  | some e => visitExpr e st
  | none => st

/-- Visit of one `ExceptHandler`: `generic_visit` visits the optional type
expression, then the handler body. -/
def visitHandler (h : Handler) (st : VisitorState) : VisitorState :=
  match h with
  | .mk htype body => visitStmts body (visitOptExpr htype st)

/-- Sequential visit of the handler list of a `Try`. -/
def visitHandlers (hs : List Handler) (st : VisitorState) : VisitorState :=
  match hs with
  | [] => st
  | h :: rest => visitHandlers rest (visitHandler h st)

end

/-- The initial visitor state of `ASTExtractor.__init__`. -/
def initState : VisitorState :=
  { functions := [], in_function := false, return_statements := [],
    exceptions := [], io_flag := false, global_mods := false }

/-- Running the extractor on a parsed module: `extractor.visit(tree)` has no
`visit_Module` override, so `generic_visit` visits the top-level statements in
order; the result is the accumulated `functions` list. -/
def runExtractor (body : List Stmt) : List FunctionDescriptor :=
  (visitStmts body initState).functions

/-- JSON values, the output shape of the script (object key order is the
insertion order of the Python dicts). -/
inductive Json where
  | null
  | bool (b : Bool)
  | num (n : Int)
  | str (s : String)
  | arr (xs : List Json)
  | obj (fields : List (String × Json))

/-- Serialization of an optional string (`None` becomes JSON null). -/
def optStrJson : Option String → Json
  | some s => .str s
  | none => .null

/-- Serialization of an optional integer (`None` becomes JSON null). -/
def optIntJson : Option Int → Json
  | some n => .num n
  | none => .null

/-- Python `str.title()` on one component: first character upper-cased, the
rest lower-cased (the components fed to it here are single lowercase words). -/
def titleCase (s : String) : String :=
  match s.data with
  | [] => ""
  | c :: rest => String.mk (c.toUpper :: rest.map Char.toLower)

/-- Split of a character list at a separator character (the semantics of
Python `str.split` with an explicit separator: `""` splits to `[""]`, and
every separator occurrence opens a new component). -/
def splitOnChar (c : Char) : List Char → List (List Char)
  | [] => [[]]
  | ch :: rest =>
    match splitOnChar c rest with
    | [] => if ch = c then [[], []] else [[ch]]
    | grp :: groups =>
      if ch = c then [] :: grp :: groups else (ch :: grp) :: groups

/-- Embedding of `to_camel_case`: split on underscores, keep the first
component, title-case the rest. -/
def to_camel_case (s : String) : String :=
  match (splitOnChar '_' s.data).map String.mk with
  | [] => ""
  | c :: rest => c ++ String.join (rest.map titleCase)

/-- Effect of `dataclass_to_dict` on a `ParameterDescriptor`: its fields in
declaration order, keys converted by `to_camel_case`. -/
def paramToJson (p : ParameterDescriptor) : Json :=
  .obj [(to_camel_case "name", .str p.name),
        (to_camel_case "type", optStrJson p.type),
        (to_camel_case "default_value", optStrJson p.default_value),
        (to_camel_case "is_optional", .bool p.is_optional)]

/-- Effect of `dataclass_to_dict` on a `ReturnDescriptor`. -/
def returnToJson (r : ReturnDescriptor) : Json :=
  .obj [(to_camel_case "type", optStrJson r.type),
        (to_camel_case "line", .num (r.line : Int))]

/-- Effect of `dataclass_to_dict` on an `ExceptionDescriptor`. -/
def excToJson (e : ExceptionDescriptor) : Json :=
  .obj [(to_camel_case "type", .str e.type),
        (to_camel_case "line", .num (e.line : Int))]

/-- Embedding of `FunctionDescriptor.to_dict`: the function range and the
docstring range are converted to 0-based VS Code coordinates (`line - 1`);
all other fields are serialized unchanged. -/
def to_dict (d : FunctionDescriptor) : Json :=
  .obj [("name", .str d.name),
        ("range", .obj
          [("start", .obj [("line", .num ((d.line_start : Int) - 1)),
                           ("character", .num (d.col_start : Int))]),
           ("end", .obj [("line", .num ((d.line_end : Int) - 1)),
                         ("character", .num (d.col_end : Int))])]),
        ("parameters", .arr (d.parameters.map paramToJson)),
        ("returnType", optStrJson d.return_type),
        ("returnStatements", .arr (d.return_statements.map returnToJson)),
        ("raises", .arr (d.raises.map excToJson)),
        ("docstring", optStrJson d.docstring),
        ("docstringRange",
          match d.docstring_line_start, d.docstring_line_end with
          | some s, some e => .obj
              [("start", .obj [("line", .num ((s : Int) - 1)),
                               ("character", .num 0)]),
               ("end", .obj [("line", .num ((e : Int) - 1)),
                             ("character", .num 0)])]
          | _, _ => .null),
        ("hasIO", .bool d.io_flag),
        ("hasGlobalMods", .bool d.global_mods)]

/-- Outcome of reading and parsing one input file, the boundary of the
`try` block of `extract_functions`: a parsed module body, a `SyntaxError`
(message, optional line, optional column offset), or any other exception
while reading (its class name and message). -/
inductive ParseOutcome where
  | parsed (body : List Stmt)
  | syntaxFailure (msg : String) (line : Option Int) (offset : Option Int)
  | otherFailure (errName : String) (msg : String)

/-- Embedding of `extract_functions`: on success, the serialized descriptors
of the whole module; on a `SyntaxError`, a failure object with the error line
and offset and no `functions` key; on any other exception, a failure object
with the exception class name. -/
def extract_functions (file_path : String) : ParseOutcome → Json
  | .parsed body =>
    .obj [("success", .bool true),
          ("file", .str file_path),
          ("functions", .arr ((runExtractor body).map to_dict))]
  | .syntaxFailure msg line offset =>
    .obj [("success", .bool false),
          ("error", .str "SyntaxError"),
          ("message", .str msg),
          ("line", optIntJson line),
          ("offset", optIntJson offset)]
  | .otherFailure errName msg =>
    .obj [("success", .bool false),
          ("error", .str errName),
          ("message", .str msg)]

/-- Top-level keys of a JSON object. -/
def Json.keys : Json → List String
  | .obj fields => fields.map Prod.fst
  | _ => []

/-- Lookup of a top-level key in a JSON object. -/
def Json.getField (j : Json) (k : String) : Option Json :=
  match j with
  | .obj fields => (fields.find? (fun p => p.1 = k)).map Prod.snd
  | _ => none

/-! Spec side.  The specification describes each descriptor as the result of
scanning only the own body of its definition — return sites, raise sites, the
I/O flag and the global-modification flag must not leak across nested
definitions — and descriptors of nested definitions as independent entries.
`BodyScan` is such an own-body scan result; `scanStmt` computes it by
structural recursion that stops at nested function definitions; `emitStmt`
lists the descriptors a statement contributes. -/

/-- Own-body scan result: return sites, raise sites, whether a recognized
I/O call occurs, whether a `global`/`nonlocal` declaration occurs. -/
structure BodyScan where
  rets : List ReturnDescriptor
  raised : List ExceptionDescriptor
  ioHit : Bool
  globalHit : Bool
  deriving DecidableEq, Repr

/-- The empty scan. -/
def BodyScan.empty : BodyScan := ⟨[], [], false, false⟩

/-- Sequencing of two scans (concatenated site lists, disjoined flags). -/
def BodyScan.seq (a b : BodyScan) : BodyScan :=
  ⟨a.rets ++ b.rets, a.raised ++ b.raised,
   a.ioHit || b.ioHit, a.globalHit || b.globalHit⟩

theorem BodyScan.seq_empty (a : BodyScan) : a.seq .empty = a := by
  simp [BodyScan.seq, BodyScan.empty]

theorem BodyScan.empty_seq (a : BodyScan) : BodyScan.empty.seq a = a := by
  simp [BodyScan.seq, BodyScan.empty]

theorem BodyScan.seq_assoc (a b c : BodyScan) :
    (a.seq b).seq c = a.seq (b.seq c) := by
  simp [BodyScan.seq, Bool.or_assoc]

/-- The raise site recorded for a raise statement with operand `e`, if any:
the statically extracted type text, dropped when falsy (empty). -/
def raiseSiteOf (e : Expr) (lineno : Nat) : List ExceptionDescriptor :=
  match extract_exception_type e with
  | some t => if t = "" then [] else [⟨t, lineno⟩]
  | none => []

mutual

/-- Own-body scan of one statement: sites and flags contributed to the
enclosing function, in visit order, never descending into a nested function
definition. -/
def scanStmt : Stmt → BodyScan
  | .functionDef _ _ _ _ _ _ _ _ _ => .empty
  | .classDef _ body => scanStmts body
  | .returnStmt value lineno =>
    BodyScan.seq ⟨[⟨returnSiteType value, lineno⟩], [], false, false⟩
      (scanOptExpr value)
  | .raiseStmt exc cause lineno =>
    BodyScan.seq
      (match exc with
       | some e => ⟨[], raiseSiteOf e lineno, false, false⟩
       | none => .empty)
      (BodyScan.seq (scanOptExpr exc) (scanOptExpr cause))
  | .exprStmt value _ _ => scanExpr value
  | .assign targets value => (scanExprs targets).seq (scanExpr value)
  | .augAssign target value => (scanExpr target).seq (scanExpr value)
  | .ifStmt test body orelse =>
    ((scanExpr test).seq (scanStmts body)).seq (scanStmts orelse)
  | .whileStmt test body orelse =>
    ((scanExpr test).seq (scanStmts body)).seq (scanStmts orelse)
  | .forStmt target iter body orelse =>
    (((scanExpr target).seq (scanExpr iter)).seq (scanStmts body)).seq
      (scanStmts orelse)
  | .withStmt items body => (scanExprs items).seq (scanStmts body)
  | .tryStmt body handlers orelse finalbody =>
    (((scanStmts body).seq (scanHandlers handlers)).seq
      (scanStmts orelse)).seq (scanStmts finalbody)
  | .globalStmt _ _ => ⟨[], [], false, true⟩
  | .nonlocalStmt _ _ => ⟨[], [], false, true⟩
  | .passStmt => .empty

/-- Own-body scan of a statement list. -/
def scanStmts : List Stmt → BodyScan
  | [] => .empty
  | s :: rest => (scanStmt s).seq (scanStmts rest)

/-- Own-body scan of an expression: only the I/O flag can be contributed. -/
def scanExpr : Expr → BodyScan
  | .constant _ => .empty
  | .name _ => .empty
  | .attrAccess v _ => scanExpr v
  | .subscript v s => (scanExpr v).seq (scanExpr s)
  | .call func callArgs =>
    BodyScan.seq ⟨[], [], ioCallHit func, false⟩
      ((scanExpr func).seq (scanExprs callArgs))
  | .binOp _ l r => (scanExpr l).seq (scanExpr r)
  | .listLit xs => scanExprs xs
  | .tupleLit xs => scanExprs xs
  | .setLit xs => scanExprs xs
  | .dictLit ks vs => (scanExprs ks).seq (scanExprs vs)
  | .yieldExpr v => scanOptExpr v
  | .yieldFrom v => scanExpr v
  | .awaitExpr v => scanExpr v

/-- Own-body scan of an expression list. -/
def scanExprs : List Expr → BodyScan
  | [] => .empty
  | e :: rest => (scanExpr e).seq (scanExprs rest)

/-- Own-body scan of an optional expression. -/
def scanOptExpr : Option Expr → BodyScan
  | some e => scanExpr e
  | none => .empty

/-- Own-body scan of one exception handler. -/
def scanHandler : Handler → BodyScan
  | .mk htype body => (scanOptExpr htype).seq (scanStmts body)

/-- Own-body scan of a handler list. -/
def scanHandlers : List Handler → BodyScan
  | [] => .empty
  | h :: rest => (scanHandler h).seq (scanHandlers rest)

end

/-- The descriptor the specification assigns to one function definition: all
volatile fields are own-body scans of that definition body alone. -/
def specDescriptor (defName : String) (args : Arguments) (body : List Stmt)
    (returns : Option Expr) (lineno : Nat) (end_lineno : Option Nat)
    (col_offset : Nat) (end_col_offset : Option Nat) : FunctionDescriptor :=
  { name := defName,
    line_start := lineno,
    line_end := pyLocOr end_lineno lineno,
    col_start := col_offset,
    col_end := pyLocOr end_col_offset col_offset,
    parameters := extract_parameters args,
    return_type := extract_return_type returns,
    return_statements := (scanStmts body).rets,
    raises := (scanStmts body).raised,
    docstring := (extract_docstring body).1,
    docstring_line_start := (extract_docstring body).2.1,
    docstring_line_end := (extract_docstring body).2.2,
    io_flag := (scanStmts body).ioHit,
    global_mods := (scanStmts body).globalHit }

mutual

/-- Descriptors contributed by one statement, in emission order: for a
function definition, first the descriptors of the definitions nested in its
body, then its own descriptor. -/
def emitStmt : Stmt → List FunctionDescriptor
  | .functionDef _ defName args body returns lineno end_lineno col_offset
      end_col_offset =>
    emitStmts body ++
      [specDescriptor defName args body returns lineno end_lineno col_offset
        end_col_offset]
  | .classDef _ body => emitStmts body
  | .ifStmt _ body orelse => emitStmts body ++ emitStmts orelse
  | .whileStmt _ body orelse => emitStmts body ++ emitStmts orelse
  | .forStmt _ _ body orelse => emitStmts body ++ emitStmts orelse
  | .withStmt _ body => emitStmts body
  | .tryStmt body handlers orelse finalbody =>
    ((emitStmts body ++ emitHandlers handlers) ++ emitStmts orelse) ++
      emitStmts finalbody
  | _ => []

/-- Descriptors contributed by a statement list. -/
def emitStmts : List Stmt → List FunctionDescriptor
  | [] => []
  | s :: rest => emitStmt s ++ emitStmts rest

/-- Descriptors contributed by one exception handler. -/
def emitHandler : Handler → List FunctionDescriptor
  | .mk _ body => emitStmts body

/-- Descriptors contributed by a handler list. -/
def emitHandlers : List Handler → List FunctionDescriptor
  | [] => []
  | h :: rest => emitHandler h ++ emitHandlers rest

end

/-- The effect every visit step has on the visitor state, as predicted by the
spec: append the emitted descriptors, and, when inside a function, append the
scanned sites and disjoin the scanned flags. -/
def stepSpec (fs : List FunctionDescriptor) (sc : BodyScan)
    (st : VisitorState) : VisitorState :=
  { functions := st.functions ++ fs,
    in_function := st.in_function,
    return_statements :=
      st.return_statements ++ (if st.in_function then sc.rets else []),
    exceptions := st.exceptions ++ (if st.in_function then sc.raised else []),
    io_flag := st.io_flag || (st.in_function && sc.ioHit),
    global_mods := st.global_mods || (st.in_function && sc.globalHit) }

theorem stepSpec_empty (st : VisitorState) :
    stepSpec [] .empty st = st := by
  cases st with
  | mk fs inf rs es io gm =>
    cases inf <;> simp [stepSpec, BodyScan.empty]

theorem stepSpec_stepSpec (fs₁ fs₂ : List FunctionDescriptor)
    (sc₁ sc₂ : BodyScan) (st : VisitorState) :
    stepSpec fs₂ sc₂ (stepSpec fs₁ sc₁ st) =
      stepSpec (fs₁ ++ fs₂) (sc₁.seq sc₂) st := by
  cases st with
  | mk fs inf rs es io gm =>
    simp [stepSpec, BodyScan.seq]
    cases inf <;>
      simp [Bool.or_assoc, Bool.and_or_distrib_left]

mutual

theorem visitStmt_eq (s : Stmt) (st : VisitorState) :
    visitStmt s st = stepSpec (emitStmt s) (scanStmt s) st := by
  cases s with
  | functionDef isAsync defName args body returns lineno end_lineno col_offset
      end_col_offset =>
    simp only [visitStmt, emitStmt, scanStmt]
    rw [visitStmts_eq]
    cases st with
    | mk fs inf rs es io gm =>
      simp [stepSpec, specDescriptor, BodyScan.empty]
  | classDef clsName body =>
    simp only [visitStmt, emitStmt, scanStmt]
    exact visitStmts_eq body st
  | returnStmt value lineno =>
    simp only [visitStmt, emitStmt, scanStmt]
    rw [visitOptExpr_eq]
    have hst1 :
        (if st.in_function then
          { st with return_statements :=
              st.return_statements ++ [⟨returnSiteType value, lineno⟩] }
         else st) =
        stepSpec [] ⟨[⟨returnSiteType value, lineno⟩], [], false, false⟩ st := by
      cases st with
      | mk fs inf rs es io gm => cases inf <;> simp [stepSpec]
    rw [hst1, stepSpec_stepSpec]
    rfl
  | raiseStmt exc cause lineno =>
    simp only [visitStmt, emitStmt, scanStmt]
    rw [visitOptExpr_eq, visitOptExpr_eq]
    have hst1 :
        (if st.in_function then
          match exc with
          | some e =>
            match extract_exception_type e with
            | some t =>
              if t = "" then st
              else { st with exceptions := st.exceptions ++ [⟨t, lineno⟩] }
            | none => st
          | none => st
         else st) =
        stepSpec []
          (match exc with
           | some e => ⟨[], raiseSiteOf e lineno, false, false⟩
           | none => .empty) st := by
      cases st with
      | mk fs inf rs es io gm =>
        cases inf with
        | false =>
          cases exc with
          | none => simp [stepSpec, BodyScan.empty]
          | some e => simp [stepSpec]
        | true =>
          cases exc with
          | none => simp [stepSpec, BodyScan.empty]
          | some e =>
            simp only [raiseSiteOf]
            cases h : extract_exception_type e with
            | none => simp [stepSpec]
            | some t =>
              by_cases ht : t = "" <;> simp [ht, stepSpec]
    rw [hst1, stepSpec_stepSpec, stepSpec_stepSpec]
    simp [BodyScan.seq_assoc]
  | exprStmt value lineno end_lineno =>
    simp only [visitStmt, emitStmt, scanStmt]
    rw [visitExpr_eq]
  | assign targets value =>
    simp only [visitStmt, emitStmt, scanStmt]
    rw [visitExprs_eq, visitExpr_eq, stepSpec_stepSpec]
    simp
  | augAssign target value =>
    simp only [visitStmt, emitStmt, scanStmt]
    rw [visitExpr_eq, visitExpr_eq, stepSpec_stepSpec]
    simp
  | ifStmt test body orelse =>
    simp only [visitStmt, emitStmt, scanStmt]
    rw [visitExpr_eq, visitStmts_eq, visitStmts_eq, stepSpec_stepSpec,
      stepSpec_stepSpec]
    simp [BodyScan.seq_assoc]
  | whileStmt test body orelse =>
    simp only [visitStmt, emitStmt, scanStmt]
    rw [visitExpr_eq, visitStmts_eq, visitStmts_eq, stepSpec_stepSpec,
      stepSpec_stepSpec]
    simp [BodyScan.seq_assoc]
  | forStmt target iter body orelse =>
    simp only [visitStmt, emitStmt, scanStmt]
    rw [visitExpr_eq, visitExpr_eq, visitStmts_eq, visitStmts_eq,
      stepSpec_stepSpec, stepSpec_stepSpec, stepSpec_stepSpec]
    simp [BodyScan.seq_assoc]
  | withStmt items body =>
    simp only [visitStmt, emitStmt, scanStmt]
    rw [visitExprs_eq, visitStmts_eq, stepSpec_stepSpec]
    simp
  | tryStmt body handlers orelse finalbody =>
    simp only [visitStmt, emitStmt, scanStmt]
    rw [visitStmts_eq, visitHandlers_eq, visitStmts_eq, visitStmts_eq,
      stepSpec_stepSpec, stepSpec_stepSpec, stepSpec_stepSpec]
    simp [BodyScan.seq_assoc]
  | globalStmt names lineno =>
    simp only [visitStmt, emitStmt, scanStmt]
    cases st with
    | mk fs inf rs es io gm => cases inf <;> simp [stepSpec]
  | nonlocalStmt names lineno =>
    simp only [visitStmt, emitStmt, scanStmt]
    cases st with
    | mk fs inf rs es io gm => cases inf <;> simp [stepSpec]
  | passStmt =>
    simp only [visitStmt, emitStmt, scanStmt]
    exact (stepSpec_empty st).symm

theorem visitStmts_eq (ss : List Stmt) (st : VisitorState) :
    visitStmts ss st = stepSpec (emitStmts ss) (scanStmts ss) st := by
  cases ss with
  | nil =>
    simp only [visitStmts, emitStmts, scanStmts]
    exact (stepSpec_empty st).symm
  | cons s rest =>
    simp only [visitStmts, emitStmts, scanStmts]
    rw [visitStmt_eq, visitStmts_eq, stepSpec_stepSpec]

theorem visitExpr_eq (e : Expr) (st : VisitorState) :
    visitExpr e st = stepSpec [] (scanExpr e) st := by
  cases e with
  | constant k =>
    simp only [visitExpr, scanExpr]
    exact (stepSpec_empty st).symm
  | name id =>
    simp only [visitExpr, scanExpr]
    exact (stepSpec_empty st).symm
  | attrAccess v a =>
    simp only [visitExpr, scanExpr]
    exact visitExpr_eq v st
  | subscript v s =>
    simp only [visitExpr, scanExpr]
    rw [visitExpr_eq, visitExpr_eq, stepSpec_stepSpec]
    rfl
  | call func callArgs =>
    simp only [visitExpr, scanExpr]
    rw [visitExpr_eq, visitExprs_eq, stepSpec_stepSpec]
    have hst1 :
        (if st.in_function then
          if ioCallHit func then { st with io_flag := true } else st
         else st) =
        stepSpec [] ⟨[], [], ioCallHit func, false⟩ st := by
      cases st with
      | mk fs inf rs es io gm =>
        cases inf with
        | false => simp [stepSpec]
        | true =>
          by_cases h : ioCallHit func <;> simp [h, stepSpec]
    rw [hst1, stepSpec_stepSpec]
    rfl
  | binOp op l r =>
    simp only [visitExpr, scanExpr]
    rw [visitExpr_eq, visitExpr_eq, stepSpec_stepSpec]
    rfl
  | listLit xs =>
    simp only [visitExpr, scanExpr]
    exact visitExprs_eq xs st
  | tupleLit xs =>
    simp only [visitExpr, scanExpr]
    exact visitExprs_eq xs st
  | setLit xs =>
    simp only [visitExpr, scanExpr]
    exact visitExprs_eq xs st
  | dictLit ks vs =>
    simp only [visitExpr, scanExpr]
    rw [visitExprs_eq, visitExprs_eq, stepSpec_stepSpec]
    rfl
  | yieldExpr v =>
    simp only [visitExpr, scanExpr]
    exact visitOptExpr_eq v st
  | yieldFrom v =>
    simp only [visitExpr, scanExpr]
    exact visitExpr_eq v st
  | awaitExpr v =>
    simp only [visitExpr, scanExpr]
    exact visitExpr_eq v st

theorem visitExprs_eq (es : List Expr) (st : VisitorState) :
    visitExprs es st = stepSpec [] (scanExprs es) st := by
  cases es with
  | nil =>
    simp only [visitExprs, scanExprs]
    exact (stepSpec_empty st).symm
  | cons e rest =>
    simp only [visitExprs, scanExprs]
    rw [visitExpr_eq, visitExprs_eq, stepSpec_stepSpec]
    rfl

theorem visitOptExpr_eq (v : Option Expr) (st : VisitorState) :
    visitOptExpr v st = stepSpec [] (scanOptExpr v) st := by
  cases v with
  | none =>
    simp only [visitOptExpr, scanOptExpr]
    exact (stepSpec_empty st).symm
  | some e =>
    simp only [visitOptExpr, scanOptExpr]
    exact visitExpr_eq e st

theorem visitHandler_eq (h : Handler) (st : VisitorState) :
    visitHandler h st = stepSpec (emitHandler h) (scanHandler h) st := by
  cases h with
  | mk htype body =>
    simp only [visitHandler, emitHandler, scanHandler]
    rw [visitOptExpr_eq, visitStmts_eq, stepSpec_stepSpec]
    rfl

theorem visitHandlers_eq (hs : List Handler) (st : VisitorState) :
    visitHandlers hs st = stepSpec (emitHandlers hs) (scanHandlers hs) st := by
  cases hs with
  | nil =>
    simp only [visitHandlers, emitHandlers, scanHandlers]
    exact (stepSpec_empty st).symm
  | cons h rest =>
    simp only [visitHandlers, emitHandlers, scanHandlers]
    rw [visitHandler_eq, visitHandlers_eq, stepSpec_stepSpec]

end

/-- Full functional correctness of the traversal: the extractor output on a
module body is exactly the spec emission (post-order descriptors whose
volatile fields are own-body scans). -/
theorem runExtractor_eq (body : List Stmt) :
    runExtractor body = emitStmts body := by
  rw [runExtractor, visitStmts_eq]
  simp [stepSpec, initState]

mutual

theorem scanExpr_sites (e : Expr) :
    (scanExpr e).rets = [] ∧ (scanExpr e).raised = [] := by
  cases e with
  | constant k => simp [scanExpr, BodyScan.empty]
  | name id => simp [scanExpr, BodyScan.empty]
  | attrAccess v a => simpa [scanExpr] using scanExpr_sites v
  | subscript v s =>
    have h1 := scanExpr_sites v
    have h2 := scanExpr_sites s
    simp [scanExpr, BodyScan.seq, h1.1, h1.2, h2.1, h2.2]
  | call func callArgs =>
    have h1 := scanExpr_sites func
    have h2 := scanExprs_sites callArgs
    simp [scanExpr, BodyScan.seq, h1.1, h1.2, h2.1, h2.2]
  | binOp op l r =>
    have h1 := scanExpr_sites l
    have h2 := scanExpr_sites r
    simp [scanExpr, BodyScan.seq, h1.1, h1.2, h2.1, h2.2]
  | listLit xs => simpa [scanExpr] using scanExprs_sites xs
  | tupleLit xs => simpa [scanExpr] using scanExprs_sites xs
  | setLit xs => simpa [scanExpr] using scanExprs_sites xs
  | dictLit ks vs =>
    have h1 := scanExprs_sites ks
    have h2 := scanExprs_sites vs
    simp [scanExpr, BodyScan.seq, h1.1, h1.2, h2.1, h2.2]
  | yieldExpr v => simpa [scanExpr] using scanOptExpr_sites v
  | yieldFrom v => simpa [scanExpr] using scanExpr_sites v
  | awaitExpr v => simpa [scanExpr] using scanExpr_sites v

theorem scanExprs_sites (es : List Expr) :
    (scanExprs es).rets = [] ∧ (scanExprs es).raised = [] := by
  cases es with
  | nil => simp [scanExprs, BodyScan.empty]
  | cons e rest =>
    have h1 := scanExpr_sites e
    have h2 := scanExprs_sites rest
    simp [scanExprs, BodyScan.seq, h1.1, h1.2, h2.1, h2.2]

theorem scanOptExpr_sites (v : Option Expr) :
    (scanOptExpr v).rets = [] ∧ (scanOptExpr v).raised = [] := by
  cases v with
  | none => simp [scanOptExpr, BodyScan.empty]
  | some e => simpa [scanOptExpr] using scanExpr_sites e

end

/-! Claim C3. -/

/-- C3 — For every module, the extractor output equals the spec emission:
one descriptor per function definition, whose return sites (`scanStmts .rets`),
raise sites (`.raised`), I/O flag (`.ioHit`) and global-modification flag
(`.globalHit`) are computed by the own-body scan of that definition body
alone — the scan never descends into a nested function definition, so a
site or flag arising inside a nested function is recorded on the nested
descriptor and never on the enclosing one, and conversely (no leakage in
either direction, siblings included). -/
theorem claim3_own_body_accumulators (body : List Stmt) :
    runExtractor body = emitStmts body :=
  runExtractor_eq body

/-! Claim C1. -/

mutual

/-- Names and start lines of function definitions in post-order: all
definitions nested inside a body first, then the definition itself. -/
def defsPostOrder : Stmt → List (String × Nat)
  | .functionDef _ defName _ body _ lineno _ _ _ =>
    defsPostOrderList body ++ [(defName, lineno)]
  | .classDef _ body => defsPostOrderList body
  | .ifStmt _ body orelse => defsPostOrderList body ++ defsPostOrderList orelse
  | .whileStmt _ body orelse =>
    defsPostOrderList body ++ defsPostOrderList orelse
  | .forStmt _ _ body orelse =>
    defsPostOrderList body ++ defsPostOrderList orelse
  | .withStmt _ body => defsPostOrderList body
  | .tryStmt body handlers orelse finalbody =>
    ((defsPostOrderList body ++ defsPostOrderHandlers handlers) ++
      defsPostOrderList orelse) ++ defsPostOrderList finalbody
  | _ => []

/-- Post-order definition list of a statement list. -/
def defsPostOrderList : List Stmt → List (String × Nat)
  | [] => []
  | s :: rest => defsPostOrder s ++ defsPostOrderList rest

/-- Post-order definition list of one exception handler. -/
def defsPostOrderHandler : Handler → List (String × Nat)
  | .mk _ body => defsPostOrderList body

/-- Post-order definition list of a handler list. -/
def defsPostOrderHandlers : List Handler → List (String × Nat)
  | [] => []
  | h :: rest => defsPostOrderHandler h ++ defsPostOrderHandlers rest

end

mutual

theorem emitStmt_namesLines (s : Stmt) :
    (emitStmt s).map (fun d => (d.name, d.line_start)) = defsPostOrder s := by
  cases s with
  | functionDef isAsync defName args body returns lineno end_lineno col_offset
      end_col_offset =>
    simp [emitStmt, defsPostOrder, emitStmts_namesLines body, specDescriptor]
  | classDef clsName body =>
    simpa [emitStmt, defsPostOrder] using emitStmts_namesLines body
  | ifStmt test body orelse =>
    simp [emitStmt, defsPostOrder, emitStmts_namesLines body,
      emitStmts_namesLines orelse]
  | whileStmt test body orelse =>
    simp [emitStmt, defsPostOrder, emitStmts_namesLines body,
      emitStmts_namesLines orelse]
  | forStmt target iter body orelse =>
    simp [emitStmt, defsPostOrder, emitStmts_namesLines body,
      emitStmts_namesLines orelse]
  | withStmt items body =>
    simpa [emitStmt, defsPostOrder] using emitStmts_namesLines body
  | tryStmt body handlers orelse finalbody =>
    simp [emitStmt, defsPostOrder, emitStmts_namesLines body,
      emitHandlers_namesLines handlers, emitStmts_namesLines orelse,
      emitStmts_namesLines finalbody]
  | returnStmt value lineno => simp [emitStmt, defsPostOrder]
  | raiseStmt exc cause lineno => simp [emitStmt, defsPostOrder]
  | exprStmt value lineno end_lineno => simp [emitStmt, defsPostOrder]
  | assign targets value => simp [emitStmt, defsPostOrder]
  | augAssign target value => simp [emitStmt, defsPostOrder]
  | globalStmt names lineno => simp [emitStmt, defsPostOrder]
  | nonlocalStmt names lineno => simp [emitStmt, defsPostOrder]
  | passStmt => simp [emitStmt, defsPostOrder]

theorem emitStmts_namesLines (ss : List Stmt) :
    (emitStmts ss).map (fun d => (d.name, d.line_start)) =
      defsPostOrderList ss := by
  cases ss with
  | nil => simp [emitStmts, defsPostOrderList]
  | cons s rest =>
    simp [emitStmts, defsPostOrderList, emitStmt_namesLines s,
      emitStmts_namesLines rest]

theorem emitHandler_namesLines (h : Handler) :
    (emitHandler h).map (fun d => (d.name, d.line_start)) =
      defsPostOrderHandler h := by
  cases h with
  | mk htype body =>
    simpa [emitHandler, defsPostOrderHandler] using emitStmts_namesLines body

theorem emitHandlers_namesLines (hs : List Handler) :
    (emitHandlers hs).map (fun d => (d.name, d.line_start)) =
      defsPostOrderHandlers hs := by
  cases hs with
  | nil => simp [emitHandlers, defsPostOrderHandlers]
  | cons h rest =>
    simp [emitHandlers, defsPostOrderHandlers, emitHandler_namesLines h,
      emitHandlers_namesLines rest]

end

/-- The empty `ast.arguments` record (a function of no parameters). -/
def noArguments : Arguments := .mk [] [] none [] [] none []

/-- A module with a nested function: `outer` starts on line 1 and contains
`inner`, which starts on line 2. -/
def c1Module : List Stmt :=
  [.functionDef false "outer" noArguments
     [.functionDef false "inner" noArguments [.passStmt] none 2 (some 3) 4
        (some 12)]
     none 1 (some 3) 0 (some 12)]

/-- C1 — counterexample.  The claim says descriptors appear in lexical
declaration order, a function with an earlier start line preceding every
later one and an outer function preceding the functions nested in it.  On a
module with `outer` (line 1) enclosing `inner` (line 2) the extractor emits
`inner` first, so the start-line sequence is `[2, 1]`, which is not sorted:
the claim as stated is false. -/
theorem claim1_counterexample :
    ((runExtractor c1Module).map (fun d => (d.name, d.line_start)) =
      [("inner", 2), ("outer", 1)]) ∧
    ¬ ((runExtractor c1Module).map
        (fun d => d.line_start)).Sorted (· ≤ ·) := by
  constructor
  · decide
  · decide

/-- C1 — amended.  The descriptor list is the post-order listing of the
function definitions: every descriptor produced by a definition nested in a
body precedes the descriptor of its enclosing definition, and sibling
definitions keep their lexical body order. -/
theorem claim1_postorder_emission (body : List Stmt) :
    (runExtractor body).map (fun d => (d.name, d.line_start)) =
      defsPostOrderList body := by
  rw [runExtractor_eq]
  exact emitStmts_namesLines body

/-! Claim C7. -/

/-- C7 — For every input whose source text cannot be parsed, the result is
the failure object whose `error` kind is `SyntaxError`, which carries the
best-effort line and column offset of the error, and which has no
`functions` key at all (no partial emission of descriptors). -/
theorem claim7_syntax_error_failure (file_path msg : String)
    (line offset : Option Int) :
    extract_functions file_path (.syntaxFailure msg line offset) =
      .obj [("success", .bool false), ("error", .str "SyntaxError"),
            ("message", .str msg), ("line", optIntJson line),
            ("offset", optIntJson offset)] ∧
    "functions" ∉
      (extract_functions file_path (.syntaxFailure msg line offset)).keys := by
  refine ⟨rfl, ?_⟩
  simp [extract_functions, Json.keys]

/-! Claim C9. -/

/-- C9 — Extraction is deterministic and idempotent: two runs of
`extract_functions` over the same unchanged input produce identical results
(same outcome, same descriptors with identical fields, in identical order).
In this embedding the only inputs of a run are the file path and the parse
outcome of the unchanged text, so the two results coincide. -/
theorem claim9_deterministic (file_path : String) (p : ParseOutcome)
    (r₁ r₂ : Json) (h₁ : r₁ = extract_functions file_path p)
    (h₂ : r₂ = extract_functions file_path p) : r₁ = r₂ :=
  h₁.trans h₂.symm

/-- C9 — witness: the two runs on a concrete one-statement module coincide. -/
theorem claim9_witness :
    extract_functions "sample.py" (.parsed c1Module) =
      extract_functions "sample.py" (.parsed c1Module) :=
  claim9_deterministic "sample.py" (.parsed c1Module)
    (extract_functions "sample.py" (.parsed c1Module))
    (extract_functions "sample.py" (.parsed c1Module)) rfl rfl

/-! Claim C4. -/

/-- A module whose single function raises an attribute-access operand:
`raise a.b` on line 2 — a compound expression, neither a direct name
reference nor a direct constructor call. -/
def c4Module : List Stmt :=
  [.functionDef false "f" noArguments
     [.raiseStmt (some (.attrAccess (.name "a") "b")) none 2]
     none 1 (some 2) 0 (some 16)]

/-- C4 — counterexample.  The claim says a raise site carries an exception
type string only when the operand is a direct name reference or a direct
constructor call, and that for any other operand (such as this attribute
access) the type is absent.  The extractor nevertheless records the site
with the type string `a.b`: `_extract_exception_type` falls through to
`ast.unparse` on every operand shape, so the type is present. -/
theorem claim4_counterexample :
    (runExtractor c4Module).map (fun d => d.raises) = [[⟨"a.b", 2⟩]] ∧
    extract_exception_type (.attrAccess (.name "a") "b") = some "a.b" := by
  constructor
  · decide
  · rfl

/-- The recorded type text of a raise operand, as the amended claim states
it: the callee source text for a direct call, the operand source text for
every other operand shape. -/
def claimRaiseText : Expr → String
  | .call f _ => unparse f
  | e => unparse e

theorem extract_exception_type_eq (e : Expr) :
    extract_exception_type e = some (claimRaiseText e) := by
  cases e <;> rfl

/-- C4 — amended.  Every raise statement with an operand records exactly one
site, carrying the line of the statement and the type text of the operand —
the callee source text for a direct constructor call, the operand source
text otherwise — whatever the shape of the operand, whenever that text is
non-empty (an exception type is never absent from a recorded site). -/
theorem claim4_type_always_recorded (exc : Expr) (cause : Option Expr)
    (lineno : Nat) (st : VisitorState) (h : st.in_function = true)
    (hne : claimRaiseText exc ≠ "") :
    (visitStmt (.raiseStmt (some exc) cause lineno) st).exceptions =
      st.exceptions ++ [⟨claimRaiseText exc, lineno⟩] := by
  rw [visitStmt_eq]
  have h1 := scanOptExpr_sites (some exc)
  have h2 := scanOptExpr_sites cause
  simp [stepSpec, h, scanStmt, BodyScan.seq, raiseSiteOf,
    extract_exception_type_eq, hne, h1.2, h2.2]

/-- C4 — witness for the amended claim: a concrete raise of `a.b` inside a
function records the one site with type text `a.b`. -/
theorem claim4_witness :
    (visitStmt (.raiseStmt (some (.attrAccess (.name "a") "b")) none 5)
        ⟨[], true, [], [], false, false⟩).exceptions = [⟨"a.b", 5⟩] := by
  have h := claim4_type_always_recorded (.attrAccess (.name "a") "b") none 5
    ⟨[], true, [], [], false, false⟩ rfl (by decide)
  simpa using h

/-! Claim C5. -/

/-- The inferred type of a return site, as the claim states it: a bare
return and a none literal give the null type name, any other literal
constant gives the name of the semantic type of that constant, a literal
container construction gives the matching container type name, and every
other expression (variable reference, arithmetic, call, ...) gives no
inferred type. -/
def claimReturnInferredType : Option Expr → Option String
  | none => some "None"
  | some (.constant .pyNone) => some "None"
  | some (.constant (.pyBool _)) => some "bool"
  | some (.constant (.pyInt _)) => some "int"
  | some (.constant (.pyFloat _)) => some "float"
  | some (.constant (.pyComplex _)) => some "complex"
  | some (.constant (.pyStr _)) => some "str"
  | some (.constant (.pyBytes _)) => some "bytes"
  | some (.constant .pyEllipsis) => some "ellipsis"
  | some (.listLit _) => some "list"
  | some (.dictLit _ _) => some "dict"
  | some (.setLit _) => some "set"
  | some (.tupleLit _) => some "tuple"
  | some _ => none

theorem returnSiteType_eq (value : Option Expr) :
    returnSiteType value = claimReturnInferredType value := by
  cases value with
  | none => rfl
  | some e =>
    cases e with
    | constant k => cases k <;> rfl
    | name id => rfl
    | attrAccess v a => rfl
    | subscript v s => rfl
    | call f xs => rfl
    | binOp op l r => rfl
    | listLit xs => rfl
    | tupleLit xs => rfl
    | setLit xs => rfl
    | dictLit ks vs => rfl
    | yieldExpr v => rfl
    | yieldFrom v => rfl
    | awaitExpr v => rfl

/-- C5 — Every return statement in a function body records exactly one site,
at the line of the statement, whose inferred type is determined purely
syntactically as `claimReturnInferredType` states: literal constants give
the semantic type of the constant, literal container constructions the
matching container type, a bare return the null type name, and every other
expression no inferred type. -/
theorem claim5_return_inference (value : Option Expr) (lineno : Nat)
    (st : VisitorState) (h : st.in_function = true) :
    (visitStmt (.returnStmt value lineno) st).return_statements =
      st.return_statements ++ [⟨claimReturnInferredType value, lineno⟩] := by
  rw [visitStmt_eq]
  have h1 := scanOptExpr_sites value
  simp [stepSpec, h, scanStmt, BodyScan.seq, returnSiteType_eq, h1.1]

/-- C5 — witness: concrete return sites for a string literal, a list
literal, a bare return and a variable reference. -/
theorem claim5_witness :
    (visitStmt (.returnStmt (some (.constant (.pyStr "ok"))) 3)
        ⟨[], true, [], [], false, false⟩).return_statements =
      [⟨some "str", 3⟩] ∧
    (visitStmt (.returnStmt (some (.listLit [])) 4)
        ⟨[], true, [], [], false, false⟩).return_statements =
      [⟨some "list", 4⟩] ∧
    (visitStmt (.returnStmt none 5)
        ⟨[], true, [], [], false, false⟩).return_statements =
      [⟨some "None", 5⟩] ∧
    (visitStmt (.returnStmt (some (.name "x")) 6)
        ⟨[], true, [], [], false, false⟩).return_statements =
      [⟨none, 6⟩] := by
  refine ⟨?_, ?_, ?_, ?_⟩
  · simpa using claim5_return_inference (some (.constant (.pyStr "ok"))) 3
      ⟨[], true, [], [], false, false⟩ rfl
  · simpa using claim5_return_inference (some (.listLit [])) 4
      ⟨[], true, [], [], false, false⟩ rfl
  · simpa using claim5_return_inference none 5
      ⟨[], true, [], [], false, false⟩ rfl
  · simpa using claim5_return_inference (some (.name "x")) 6
      ⟨[], true, [], [], false, false⟩ rfl

/-! Claim C2. -/

/-- The complete key list of every serialized function descriptor
(`FunctionDescriptor.to_dict`). -/
def serializedDescriptorKeys : List String :=
  ["name", "range", "parameters", "returnType", "returnStatements", "raises",
   "docstring", "docstringRange", "hasIO", "hasGlobalMods"]

/-- The generator module of the repository test suite
(`test_generator_detection`): `simple_generator` yields inside a loop, and
`generator_with_return` has two yield statements and a return. -/
def c2Module : List Stmt :=
  [.functionDef false "simple_generator"
     (.mk [] [.mk "n" (some (.name "int"))] none [] [] none [])
     [.exprStmt (.constant (.pyStr "Generate numbers.")) 3 (some 3),
      .forStmt (.name "i") (.call (.name "range") [.name "n"])
        [.exprStmt (.yieldExpr (some (.name "i"))) 5 (some 5)] []]
     none 2 (some 5) 0 (some 15),
   .functionDef false "generator_with_return" noArguments
     [.exprStmt (.constant (.pyStr "Generator with return.")) 8 (some 8),
      .exprStmt (.yieldExpr (some (.constant (.pyInt 1)))) 9 (some 9),
      .exprStmt (.yieldExpr (some (.constant (.pyInt 2)))) 10 (some 10),
      .returnStmt (some (.constant (.pyStr "done"))) 11]
     none 7 (some 11) 0 (some 17)]

/-- C2 — the test suite of the repository asserts `isGenerator`, `isAsync`
and `yieldStatements` entries on each serialized descriptor of this very
module, and the specification requires the flags and the ordered yield-site
list.  The emitted descriptors carry no such fields: on the generator module
the serialized `functions` array consists of objects whose key lists are
exactly `serializedDescriptorKeys`, which contains none of the three keys —
the visitor never records yield expressions at all. -/
theorem claim2_missing_generator_fields :
    ((extract_functions "generator.py" (.parsed c2Module)).getField
        "functions" = some (.arr ((runExtractor c2Module).map to_dict))) ∧
    (runExtractor c2Module).map (fun d => (to_dict d).keys) =
      [serializedDescriptorKeys, serializedDescriptorKeys] ∧
    "isGenerator" ∉ serializedDescriptorKeys ∧
    "isAsync" ∉ serializedDescriptorKeys ∧
    "yieldStatements" ∉ serializedDescriptorKeys := by
  refine ⟨rfl, ?_, by decide, by decide, by decide⟩
  decide

/-! Claim C8. -/

/-- A module whose single function spans source lines 1–2 with a return
statement on source line 2 (the last line of the function). -/
def c8Module : List Stmt :=
  [.functionDef false "f" noArguments
     [.returnStmt (some (.constant (.pyInt 1))) 2]
     none 1 (some 2) 0 (some 12)]

/-- The serialized `functions` array of an extraction result. -/
def jsonFunctions (j : Json) : List Json :=
  match j.getField "functions" with
  | some (.arr xs) => xs
  | _ => []

/-- The serialized line number at the end of the `range` of one serialized
descriptor. -/
def rangeEndLine (j : Json) : Option Json :=
  (j.getField "range").bind fun r => (r.getField "end").bind
    fun e => e.getField "line"

/-- C8 — counterexample.  The claim says the serialized function range, the
return-statement line fields and the raise-site line fields of one
descriptor use a single consistent line convention.  On `c8Module` the
descriptor ends on source line 2 and its only return site is on source line
2 — the same physical line — yet the serialized range end line is `1`
(0-based, `line - 1` in `to_dict`) while the serialized return line is `2`
(1-based, unchanged): no single offset `k` maps the source line to both
serialized values, so the claim as stated is false. -/
theorem claim8_counterexample :
    (runExtractor c8Module).map
        (fun d => (d.line_end, d.return_statements.map (fun r => r.line))) =
      [(2, [2])] ∧
    (jsonFunctions (extract_functions "sample.py" (.parsed c8Module))).map
        (fun j => (rangeEndLine j, j.getField "returnStatements")) =
      [(some (.num 1),
        some (.arr [.obj [("type", .str "int"), ("line", .num 2)]]))] ∧
    ¬ ∃ k : Int, (1 : Int) = 2 - k ∧ (2 : Int) = 2 - k := by
  refine ⟨by decide, by rfl, ?_⟩
  rintro ⟨k, h1, h2⟩
  omega

/-- C8 — amended.  Serialization uses two conventions, each applied
uniformly to its own group of fields: the function range and the docstring
range are emitted 0-based (each stored source line minus one), while the
return-statement and raise-site line fields are emitted unchanged (1-based
source lines). -/
theorem claim8_two_conventions (d : FunctionDescriptor) :
    (to_dict d).getField "range" =
      some (.obj
        [("start", .obj [("line", .num ((d.line_start : Int) - 1)),
                         ("character", .num (d.col_start : Int))]),
         ("end", .obj [("line", .num ((d.line_end : Int) - 1)),
                       ("character", .num (d.col_end : Int))])]) ∧
    (to_dict d).getField "returnStatements" =
      some (.arr (d.return_statements.map
        (fun r => .obj [("type", optStrJson r.type),
                        ("line", .num (r.line : Int))]))) ∧
    (to_dict d).getField "raises" =
      some (.arr (d.raises.map
        (fun e => .obj [("type", .str e.type),
                        ("line", .num (e.line : Int))]))) ∧
    (∀ s e, d.docstring_line_start = some s → d.docstring_line_end = some e →
      (to_dict d).getField "docstringRange" =
        some (.obj
          [("start", .obj [("line", .num ((s : Int) - 1)),
                           ("character", .num 0)]),
           ("end", .obj [("line", .num ((e : Int) - 1)),
                         ("character", .num 0)])])) := by
  refine ⟨rfl, rfl, rfl, ?_⟩
  intro s e hs he
  simp [to_dict, Json.getField, hs, he]

/-- C8 — witness for the amended claim at a concrete descriptor: function
lines 1–3 are serialized as 0–2, the docstring lines 2–2 as 1–1, and the
return line 3 and raise line 3 stay 3. -/
theorem claim8_witness :
    (to_dict ⟨"f", 1, 3, 0, 10, [], none, [⟨some "int", 3⟩], [⟨"ValueError", 3⟩],
        some "doc", some 2, some 2, false, false⟩).getField "range" =
      some (.obj
        [("start", .obj [("line", .num 0), ("character", .num 0)]),
         ("end", .obj [("line", .num 2), ("character", .num 10)])]) ∧
    (to_dict ⟨"f", 1, 3, 0, 10, [], none, [⟨some "int", 3⟩], [⟨"ValueError", 3⟩],
        some "doc", some 2, some 2, false, false⟩).getField "returnStatements" =
      some (.arr [.obj [("type", .str "int"), ("line", .num 3)]]) ∧
    (to_dict ⟨"f", 1, 3, 0, 10, [], none, [⟨some "int", 3⟩], [⟨"ValueError", 3⟩],
        some "doc", some 2, some 2, false, false⟩).getField "raises" =
      some (.arr [.obj [("type", .str "ValueError"), ("line", .num 3)]]) ∧
    (to_dict ⟨"f", 1, 3, 0, 10, [], none, [⟨some "int", 3⟩], [⟨"ValueError", 3⟩],
        some "doc", some 2, some 2, false, false⟩).getField "docstringRange" =
      some (.obj
        [("start", .obj [("line", .num 1), ("character", .num 0)]),
         ("end", .obj [("line", .num 1), ("character", .num 0)])]) := by
  have h := claim8_two_conventions
    ⟨"f", 1, 3, 0, 10, [], none, [⟨some "int", 3⟩], [⟨"ValueError", 3⟩],
      some "doc", some 2, some 2, false, false⟩
  refine ⟨?_, ?_, ?_, ?_⟩
  · simpa using h.1
  · simpa using h.2.1
  · simpa using h.2.2.1
  · simpa using h.2.2.2 2 2 rfl rfl

/-! Claim C6. -/

/-- The parameter entry the claim assigns to the regular positional argument
at position `i`: defaults are right-aligned over the positional parameters,
so the argument has a default exactly when its position lies in the trailing
`defaults.length` positions of the `numArgs` regular arguments, and in that
case the default source text is recorded. -/
def claimRegularEntry (defaults : List Expr) (numArgs i : Nat) (a : Arg) :
    ParameterDescriptor :=
  if numArgs ≤ i + defaults.length then
    ⟨a.nameOf, extract_annotation a.annOf,
     (defaults.get? (i + defaults.length - numArgs)).map unparse, true⟩
  else ⟨a.nameOf, extract_annotation a.annOf, none, false⟩

/-- Claim-side listing of the regular positional entries from position `i`
on, skipping `self`/`cls` names. -/
def claimRegularAux (defaults : List Expr) (numArgs : Nat) :
    Nat → List Arg → List ParameterDescriptor
  | _, [] => []
  | i, a :: rest =>
    if a.nameOf = "self" || a.nameOf = "cls" then
      claimRegularAux defaults numArgs (i + 1) rest
    else
      claimRegularEntry defaults numArgs i a ::
        claimRegularAux defaults numArgs (i + 1) rest

/-- Claim-side listing of the regular positional entries of a signature. -/
def claimRegularList (defaults : List Expr) (ar : List Arg) :
    List ParameterDescriptor :=
  claimRegularAux defaults ar.length 0 ar

/-- The distinguished variadic-positional entry of the claim: name prefixed
with the positional marker, always optional, no default text. -/
def claimVarargEntry : Option Arg → List ParameterDescriptor
  | some v => [⟨"*" ++ v.nameOf, extract_annotation v.annOf, none, true⟩]
  | none => []

/-- The distinguished variadic-keyword entry of the claim: name prefixed
with the keyword marker, always optional, no default text. -/
def claimKwargEntry : Option Arg → List ParameterDescriptor
  | some k => [⟨"**" ++ k.nameOf, extract_annotation k.annOf, none, true⟩]
  | none => []

/-- The claim-side keyword-only entries: each keyword-only argument is
paired positionally with its optional default, is flagged optional exactly
when that default is present, and records its source text. -/
def claimKwonlyList (kwonlyargs : List Arg) (kw_defaults : List (Option Expr)) :
    List ParameterDescriptor :=
  (kwonlyargs.zip kw_defaults).map fun p =>
    match p.2 with
    | some d => ⟨p.1.nameOf, extract_annotation p.1.annOf, some (unparse d), true⟩
    | none => ⟨p.1.nameOf, extract_annotation p.1.annOf, none, false⟩

theorem extractRegular_shift (ds : List Expr) (off : Int) (ar : List Arg) :
    ∀ i, extractRegularParams (off + 1) ds (i + 1) ar =
      extractRegularParams off ds i ar := by
  induction ar with
  | nil => intro i; rfl
  | cons a rest ih =>
    intro i
    have hcast : ((i + 1 : Nat) : Int) - (off + 1) = (i : Int) - off := by
      push_cast; ring
    simp only [extractRegularParams, hcast, ih (i + 1)]

theorem extractRegular_eq_claim (ds : List Expr) (numArgs : Nat) :
    ∀ (ar : List Arg) (i : Nat), i + ar.length = numArgs →
      extractRegularParams ((numArgs : Int) - (ds.length : Int)) ds i ar =
        claimRegularAux ds numArgs i ar := by
  intro ar
  induction ar with
  | nil => intro i _; rfl
  | cons a rest ih =>
    intro i hlen
    simp only [List.length_cons] at hlen
    have htail := ih (i + 1) (by omega)
    by_cases hsk : (a.nameOf = "self" || a.nameOf = "cls") = true
    · simp only [extractRegularParams, claimRegularAux, hsk, if_true, htail]
    · have hi : i < numArgs := by omega
      by_cases hc : numArgs ≤ i + ds.length
      · have h0 : (0 : Int) ≤ (i : Int) - ((numArgs : Int) - (ds.length : Int)) := by
          omega
        have htn : ((i : Int) - ((numArgs : Int) - (ds.length : Int))).toNat =
            i + ds.length - numArgs := by omega
        have hlt : i + ds.length - numArgs < ds.length := by omega
        have hget : ds.get? (i + ds.length - numArgs) =
            some (ds.get ⟨i + ds.length - numArgs, hlt⟩) :=
          List.get?_eq_get hlt
        simp only [extractRegularParams, claimRegularAux, claimRegularEntry,
          hsk, if_false, h0, if_true, htn, hget, hc, htail]
        simp [Bool.not_eq_true] at hsk ⊢
      · have h0 : ¬ (0 : Int) ≤ (i : Int) - ((numArgs : Int) - (ds.length : Int)) := by
          omega
        simp only [extractRegularParams, claimRegularAux, claimRegularEntry,
          hsk, if_false, h0, hc, htail]

theorem foldl_kwStep_skip (n : String) (pairs : List (Arg × Option Expr))
    (hn : ∀ p ∈ pairs, p.1.nameOf ≠ n) (acc : Option Expr) :
    pairs.foldl (kwStep n) acc = acc := by
  induction pairs generalizing acc with
  | nil => rfl
  | cons p rest ih =>
    have hp := hn p (by simp)
    have hrest : ∀ q ∈ rest, q.1.nameOf ≠ n := fun q hq => hn q (by simp [hq])
    have hstep : kwStep n acc p = acc := by
      cases h2 : p.2 with
      | none => simp [kwStep, h2]
      | some d => simp [kwStep, h2, hp]
    simp [List.foldl_cons, hstep, ih hrest]

theorem kwDefaultFor_head (a : Arg) (d : Option Expr)
    (rest : List (Arg × Option Expr))
    (hrest : ∀ p ∈ rest, p.1.nameOf ≠ a.nameOf) :
    kwDefaultFor a.nameOf ((a, d) :: rest) = d := by
  have hstep : kwStep a.nameOf none (a, d) = d := by
    cases d with
    | none => rfl
    | some dd => simp [kwStep]
  simp [kwDefaultFor, List.foldl_cons, hstep, foldl_kwStep_skip _ _ hrest]

theorem kwDefaultFor_tail (n : String) (a : Arg) (d : Option Expr)
    (rest : List (Arg × Option Expr)) (hne : a.nameOf ≠ n) :
    kwDefaultFor n ((a, d) :: rest) = kwDefaultFor n rest := by
  have hstep : kwStep n none (a, d) = none := by
    cases d with
    | none => rfl
    | some dd => simp [kwStep, hne]
  simp [kwDefaultFor, List.foldl_cons, hstep]

theorem extractKwonly_eq_claim :
    ∀ (ko : List Arg) (kd : List (Option Expr)),
      (ko.map Arg.nameOf).Nodup → kd.length = ko.length →
      extractKwonlyParams ko kd = claimKwonlyList ko kd := by
  intro ko
  induction ko with
  | nil => intro kd _ _; rfl
  | cons a ko' ih =>
    intro kd hnd hlen
    cases kd with
    | nil => simp at hlen
    | cons b kd' =>
      simp only [List.map_cons, List.nodup_cons] at hnd
      have hnotin : a.nameOf ∉ ko'.map Arg.nameOf := hnd.1
      have hzrest : ∀ p ∈ ko'.zip kd', p.1.nameOf ≠ a.nameOf := by
        intro p hp hcontra
        exact hnotin (hcontra ▸ List.mem_map_of_mem Arg.nameOf
          (List.of_mem_zip hp).1)
      have hlen' : kd'.length = ko'.length := by
        simpa using hlen
      have hhead : kwDefaultFor a.nameOf ((a, b) :: ko'.zip kd') = b :=
        kwDefaultFor_head a b _ hzrest
      have htailmap :
          ∀ kwarg ∈ ko',
            (match kwDefaultFor kwarg.nameOf ((a, b) :: ko'.zip kd') with
             | some d => (⟨kwarg.nameOf, extract_annotation kwarg.annOf,
                 some (unparse d), true⟩ : ParameterDescriptor)
             | none => ⟨kwarg.nameOf, extract_annotation kwarg.annOf,
                 none, false⟩) =
            (match kwDefaultFor kwarg.nameOf (ko'.zip kd') with
             | some d => (⟨kwarg.nameOf, extract_annotation kwarg.annOf,
                 some (unparse d), true⟩ : ParameterDescriptor)
             | none => ⟨kwarg.nameOf, extract_annotation kwarg.annOf,
                 none, false⟩) := by
        intro kwarg hk
        have hne : a.nameOf ≠ kwarg.nameOf := by
          intro hcontra
          exact hnotin (hcontra ▸ List.mem_map_of_mem Arg.nameOf hk)
        rw [kwDefaultFor_tail kwarg.nameOf a b _ hne]
      calc extractKwonlyParams (a :: ko') (b :: kd')
          = (match b with
             | some d => (⟨a.nameOf, extract_annotation a.annOf,
                 some (unparse d), true⟩ : ParameterDescriptor)
             | none => ⟨a.nameOf, extract_annotation a.annOf, none, false⟩) ::
            ko'.map (fun kwarg =>
              match kwDefaultFor kwarg.nameOf ((a, b) :: ko'.zip kd') with
              | some d => ⟨kwarg.nameOf, extract_annotation kwarg.annOf,
                  some (unparse d), true⟩
              | none => ⟨kwarg.nameOf, extract_annotation kwarg.annOf,
                  none, false⟩) := by
            simp only [extractKwonlyParams, List.zip_cons_cons, List.map_cons,
              hhead]
        _ = (match b with
             | some d => (⟨a.nameOf, extract_annotation a.annOf,
                 some (unparse d), true⟩ : ParameterDescriptor)
             | none => ⟨a.nameOf, extract_annotation a.annOf, none, false⟩) ::
            extractKwonlyParams ko' kd' := by
            rw [List.map_congr_left htailmap]; rfl
        _ = claimKwonlyList (a :: ko') (b :: kd') := by
            rw [ih kd' hnd.2 hlen']
            simp only [claimKwonlyList, List.zip_cons_cons, List.map_cons]

/-- C6 — (1) an implicit `self`/`cls` first parameter contributes nothing to
the parameter sequence, and (2) the sequence is exactly: the regular
positional entries, optional exactly when a right-aligned default covers
their position (with that default source text recorded); the prefixed
always-optional variadic-positional entry when present; the keyword-only
entries, optional exactly when their positional default is present (with its
source text); and the prefixed always-optional variadic-keyword entry when
present.  The keyword-only part assumes the Python well-formedness
guarantees: distinct keyword-only names and one (possibly absent) default
per keyword-only argument. -/
theorem claim6_parameters :
    (∀ (po : List Arg) (a : Arg) (rest : List Arg) (va : Option Arg)
        (ko : List Arg) (kd : List (Option Expr)) (kw : Option Arg)
        (ds : List Expr),
      (a.nameOf = "self" ∨ a.nameOf = "cls") →
      extract_parameters (.mk po (a :: rest) va ko kd kw ds) =
        extract_parameters (.mk po rest va ko kd kw ds)) ∧
    (∀ (po ar : List Arg) (va : Option Arg) (ko : List Arg)
        (kd : List (Option Expr)) (kw : Option Arg) (ds : List Expr),
      (ko.map Arg.nameOf).Nodup → kd.length = ko.length →
      extract_parameters (.mk po ar va ko kd kw ds) =
        claimRegularList ds ar ++ claimVarargEntry va ++
          claimKwonlyList ko kd ++ claimKwargEntry kw) := by
  constructor
  · intro po a rest va ko kd kw ds h
    simp only [extract_parameters]
    have hsk : (a.nameOf = "self" || a.nameOf = "cls") = true := by
      rcases h with h | h <;> simp [h]
    have hreg : extractRegularParams
        (((a :: rest).length : Int) - (ds.length : Int)) ds 0 (a :: rest) =
        extractRegularParams ((rest.length : Int) - (ds.length : Int)) ds 0
          rest := by
      have hcast : (((a :: rest).length : Nat) : Int) - (ds.length : Int) =
          ((rest.length : Int) - (ds.length : Int)) + 1 := by
        simp only [List.length_cons]; push_cast; ring
      rw [hcast]
      simp only [extractRegularParams, hsk, if_true]
      exact extractRegular_shift ds _ rest 0
    rw [hreg]
  · intro po ar va ko kd kw ds hnd hlen
    simp only [extract_parameters, claimRegularList]
    rw [extractRegular_eq_claim ds ar.length ar 0 (by omega),
      extractKwonly_eq_claim ko kd hnd hlen]
    have hva : (match va with
        | some v => [(⟨"*" ++ v.nameOf, extract_annotation v.annOf, none,
            true⟩ : ParameterDescriptor)]
        | none => []) = claimVarargEntry va := by
      cases va <;> rfl
    have hkw : (match kw with
        | some k => [(⟨"**" ++ k.nameOf, extract_annotation k.annOf, none,
            true⟩ : ParameterDescriptor)]
        | none => []) = claimKwargEntry kw := by
      cases kw <;> rfl
    rw [hva, hkw]

/-- C6 — witness on the signature
`def f(self, x, y=5, *rest, z, w=3, **kw)`: the implicit first parameter is
dropped, and the characterization evaluates to the six expected entries. -/
theorem claim6_witness :
    extract_parameters (.mk [] [.mk "self" none, .mk "x" none, .mk "y" none]
        (some (.mk "rest" none)) [.mk "z" none, .mk "w" none]
        [none, some (.constant (.pyInt 3))] (some (.mk "kw" none))
        [.constant (.pyInt 5)]) =
      extract_parameters (.mk [] [.mk "x" none, .mk "y" none]
        (some (.mk "rest" none)) [.mk "z" none, .mk "w" none]
        [none, some (.constant (.pyInt 3))] (some (.mk "kw" none))
        [.constant (.pyInt 5)]) ∧
    extract_parameters (.mk [] [.mk "x" none, .mk "y" none]
        (some (.mk "rest" none)) [.mk "z" none, .mk "w" none]
        [none, some (.constant (.pyInt 3))] (some (.mk "kw" none))
        [.constant (.pyInt 5)]) =
      claimRegularList [.constant (.pyInt 5)] [.mk "x" none, .mk "y" none] ++
        claimVarargEntry (some (.mk "rest" none)) ++
        claimKwonlyList [.mk "z" none, .mk "w" none]
          [none, some (.constant (.pyInt 3))] ++
        claimKwargEntry (some (.mk "kw" none)) ∧
    extract_parameters (.mk [] [.mk "x" none, .mk "y" none]
        (some (.mk "rest" none)) [.mk "z" none, .mk "w" none]
        [none, some (.constant (.pyInt 3))] (some (.mk "kw" none))
        [.constant (.pyInt 5)]) =
      [⟨"x", none, none, false⟩, ⟨"y", none, some "5", true⟩,
       ⟨"*rest", none, none, true⟩, ⟨"z", none, none, false⟩,
       ⟨"w", none, some "3", true⟩, ⟨"**kw", none, none, true⟩] := by
  refine ⟨?_, ?_, by decide⟩
  · exact claim6_parameters.1 [] (.mk "self" none) [.mk "x" none, .mk "y" none]
      (some (.mk "rest" none)) [.mk "z" none, .mk "w" none]
      [none, some (.constant (.pyInt 3))] (some (.mk "kw" none))
      [.constant (.pyInt 5)] (Or.inl rfl)
  · exact claim6_parameters.2 [] [.mk "x" none, .mk "y" none]
      (some (.mk "rest" none)) [.mk "z" none, .mk "w" none]
      [none, some (.constant (.pyInt 3))] (some (.mk "kw" none))
      [.constant (.pyInt 5)] (by decide) (by decide)

/-! Claim C10. -/

theorem mem_extractRegular_name (p : ParameterDescriptor) (ds : List Expr)
    (off : Int) :
    ∀ (ar : List Arg) (i : Nat), p ∈ extractRegularParams off ds i ar →
      ∃ a, a ∈ ar ∧ p.name = a.nameOf := by
  intro ar
  induction ar with
  | nil => intro i hp; simp [extractRegularParams] at hp
  | cons a rest ih =>
    intro i hp
    simp only [extractRegularParams] at hp
    by_cases hsk : (a.nameOf = "self" || a.nameOf = "cls") = true
    · simp only [hsk, if_true] at hp
      obtain ⟨b, hb, hname⟩ := ih (i + 1) hp
      exact ⟨b, by simp [hb], hname⟩
    · simp only [hsk, if_false] at hp
      by_cases h0 : (0 : Int) ≤ (i : Int) - off
      · simp only [h0, if_true] at hp
        cases hget : ds.get? ((i : Int) - off).toNat with
        | some d =>
          rw [hget] at hp
          rcases List.mem_cons.mp hp with heq | htail
          · exact ⟨a, by simp, by simp [heq]⟩
          · obtain ⟨b, hb, hname⟩ := ih (i + 1) htail
            exact ⟨b, by simp [hb], hname⟩
        | none =>
          rw [hget] at hp
          rcases List.mem_cons.mp hp with heq | htail
          · exact ⟨a, by simp, by simp [heq]⟩
          · obtain ⟨b, hb, hname⟩ := ih (i + 1) htail
            exact ⟨b, by simp [hb], hname⟩
      · simp only [h0, if_false] at hp
        rcases List.mem_cons.mp hp with heq | htail
        · exact ⟨a, by simp, by simp [heq]⟩
        · obtain ⟨b, hb, hname⟩ := ih (i + 1) htail
          exact ⟨b, by simp [hb], hname⟩

theorem mem_extractKwonly_name (p : ParameterDescriptor) (ko : List Arg)
    (kd : List (Option Expr)) (hp : p ∈ extractKwonlyParams ko kd) :
    ∃ a, a ∈ ko ∧ p.name = a.nameOf := by
  simp only [extractKwonlyParams, List.mem_map] at hp
  obtain ⟨a, ha, heq⟩ := hp
  refine ⟨a, ha, ?_⟩
  cases h : kwDefaultFor a.nameOf (ko.zip kd) with
  | some d => rw [h] at heq; simp [← heq]
  | none => rw [h] at heq; simp [← heq]

/-- C10 — positional-only parameters are omitted entirely: the field
`posonlyargs` never influences the parameter sequence (first conjunct), and
every emitted entry arises from a regular positional argument, the
variadic-positional entry, a keyword-only argument, or the variadic-keyword
entry (second conjunct). -/
theorem claim10_posonly_omitted :
    (∀ (po po' ar : List Arg) (va : Option Arg) (ko : List Arg)
        (kd : List (Option Expr)) (kw : Option Arg) (ds : List Expr),
      extract_parameters (.mk po ar va ko kd kw ds) =
        extract_parameters (.mk po' ar va ko kd kw ds)) ∧
    (∀ (po ar : List Arg) (va : Option Arg) (ko : List Arg)
        (kd : List (Option Expr)) (kw : Option Arg) (ds : List Expr)
        (p : ParameterDescriptor),
      p ∈ extract_parameters (.mk po ar va ko kd kw ds) →
      (∃ a, a ∈ ar ∧ p.name = a.nameOf) ∨
      (∃ v, va = some v ∧ p.name = "*" ++ v.nameOf) ∨
      (∃ a, a ∈ ko ∧ p.name = a.nameOf) ∨
      (∃ k, kw = some k ∧ p.name = "**" ++ k.nameOf)) := by
  constructor
  · intro po po' ar va ko kd kw ds
    rfl
  · intro po ar va ko kd kw ds p hp
    simp only [extract_parameters, List.append_assoc, List.mem_append] at hp
    rcases hp with hreg | hva | hko | hkw
    · exact Or.inl (mem_extractRegular_name p ds _ ar 0 hreg)
    · cases va with
      | none => simp at hva
      | some v =>
        simp only [List.mem_singleton] at hva
        exact Or.inr (Or.inl ⟨v, rfl, by simp [hva]⟩)
    · exact Or.inr (Or.inr (Or.inl (mem_extractKwonly_name p ko kd hko)))
    · cases kw with
      | none => simp at hkw
      | some k =>
        simp only [List.mem_singleton] at hkw
        exact Or.inr (Or.inr (Or.inr ⟨k, rfl, by simp [hkw]⟩))

/-- C10 — witness: on `def f(q, /, x)` the only emitted entry is `x`, a
regular positional argument. -/
theorem claim10_witness :
    (∃ a, a ∈ [Arg.mk "x" none] ∧
        (⟨"x", none, none, false⟩ : ParameterDescriptor).name = a.nameOf) ∨
    (∃ v, (none : Option Arg) = some v ∧
        (⟨"x", none, none, false⟩ : ParameterDescriptor).name =
          "*" ++ v.nameOf) ∨
    (∃ a, a ∈ ([] : List Arg) ∧
        (⟨"x", none, none, false⟩ : ParameterDescriptor).name = a.nameOf) ∨
    (∃ k, (none : Option Arg) = some k ∧
        (⟨"x", none, none, false⟩ : ParameterDescriptor).name =
          "**" ++ k.nameOf) :=
  claim10_posonly_omitted.2 [.mk "q" none] [.mk "x" none] none [] [] none []
    ⟨"x", none, none, false⟩ (by decide)

end DocstringVerifier
